import Mathlib

/-!
Verification of the meego HTTP/1.1 server engine (github.com/asaka1234/meego).

This file shallowly embeds the Go source into Lean:
* Go strings are modelled as Lean `String`s; wire streams as `List Nat`
  (one `Nat` per byte).  All the inputs exercised by the theorems are ASCII,
  where byte-wise and character-wise processing coincide.
* Go maps are modelled as association lists with last-write-wins update.
* Fallible code returns `Except` / `Option`.
* Loops whose termination is not structural use an explicit fuel argument;
  each loop iteration consumes at least one byte of the stream, so a fuel of
  `stream.length + 1` can never be exhausted.

Each claim Ci of the specification audit is settled by one theorem below the
definitions.
-/

namespace Meego

/-- Splits a character list at every occurrence of `c`; the single-byte
instance of Go's `strings.Split` / `bytes.Split` (always returns at least one
part, empty parts included). -/
def splitListOn (c : Char) : List Char → List (List Char)
  | [] => [[]]
  | x :: xs =>
    if x = c then [] :: splitListOn c xs
    else
      match splitListOn c xs with
      | [] => [[x]]
      | h :: t => (x :: h) :: t

/-- Boolean list-prefix test (structural, so that it reduces in the kernel). -/
def isPrefixL : List Char → List Char → Bool
  | [], _ => true
  | _ :: _, [] => false
  | a :: as, b :: bs => a = b && isPrefixL as bs

/-- Embeds `strings.Contains sub` on character lists. -/
def containsSub (sub : List Char) : List Char → Bool
  | [] => sub.isEmpty
  | x :: xs => isPrefixL sub (x :: xs) || containsSub sub xs

/-- ASCII upper-casing of one character (the inputs we reason about are
ASCII, where Go's Unicode `strings.ToUpper` agrees). -/
def charUpper (c : Char) : Char :=
  if 'a' ≤ c ∧ c ≤ 'z' then Char.ofNat (c.toNat - 32) else c

/-- ASCII upper-casing of a string, modelling `strings.ToUpper`. -/
def upperStr (s : String) : String := String.mk (s.toList.map charUpper)

/-- ASCII lower-casing of one character. -/
def charLower (c : Char) : Char :=
  if 'A' ≤ c ∧ c ≤ 'Z' then Char.ofNat (c.toNat + 32) else c

/-- ASCII lower-casing of a string, modelling `strings.ToLower`. -/
def lowerStr (s : String) : String := String.mk (s.toList.map charLower)

/-- Character count of a string (coincides with Go's byte length on ASCII). -/
def strLen (s : String) : Nat := s.toList.length

/-- First character of a string, modelling a Go `s[0]` read on a non-empty
ASCII string. -/
def headChar (s : String) : Char := s.toList.headD (Char.ofNat 0)

/-- Drops the first `n` characters, modelling a Go `s[n:]` slice on ASCII. -/
def dropChars (n : Nat) (s : String) : String := String.mk (s.toList.drop n)

/-- Association-list lookup, modelling a Go `map[string]V` read. -/
def lookupA {V : Type} : List (String × V) → String → Option V
  | [], _ => none
  | (k, v) :: rest, key => if k = key then some v else lookupA rest key

/-- Association-list insert/overwrite, modelling a Go `m[k] = v` write. -/
def updateA {V : Type} : List (String × V) → String → V → List (String × V)
  | [], key, v => [(key, v)]
  | (k, w) :: rest, key, v =>
    if k = key then (k, v) :: rest else (k, w) :: updateA rest key v

/-! ## Router (src/http_router.go) -/

/-- Embeds `splitPathFast` (src/http_router.go:191): strips one leading and one
trailing slash, then splits the remainder at every `/`. -/
def splitPathFast (path : String) : List String :=
  if path = "" ∨ path = "/" then [""]
  else
    let cs := path.toList
    let cs := if cs.head? = some '/' then cs.drop 1 else cs
    let cs := if cs.getLast? = some '/' then cs.dropLast else cs
    if cs.isEmpty then [""]
    else (splitListOn '/' cs).map String.mk

/-- Removes every leading and trailing `/`, modelling `strings.Trim(path, "/")`. -/
def trimSlashes (s : String) : String :=
  String.mk (((s.toList.dropWhile (· = '/')).reverse.dropWhile (· = '/')).reverse)

/-- Embeds `Route.parsePath` (src/http_router.go:136): compiles a path template
into the segment list (parameter segments become the marker `":"`) and the
parameter names in declaration order. -/
def parsePath (path : String) : List String × List String :=
  let p := trimSlashes path
  if p = "" then ([""], [])
  else
    (splitPathFast p).foldl
      (fun acc seg =>
        if strLen seg > 1 ∧ headChar seg = ':' then
          (acc.1 ++ [":"], acc.2 ++ [dropChars 1 seg])
        else
          (acc.1 ++ [seg], acc.2))
      ([], [])

/-- Embeds the `Route` struct (src/http_router.go:10); handlers are kept
abstract in the type parameter `H`. -/
structure RouteR (H : Type) where
  method : String
  path : String
  handler : H
  segments : List String
  paramNames : List String

/-- Builds a compiled route the way `AddRoute` does (struct literal followed by
`route.parsePath()`). -/
def mkRoute {H : Type} (method path : String) (handler : H) : RouteR H :=
  let sp := parsePath path
  { method := method, path := path, handler := handler,
    segments := sp.1, paramNames := sp.2 }

/-- Embeds the matching loop of `Route.matchFast` (src/http_router.go:167-181):
walks route segments and path segments in parallel, consuming one parameter
name at each `":"` marker; the final check of the source
(`paramIndex != len(r.paramNames)`) becomes the requirement that every name
was consumed. -/
def matchLoop : List String → List String → List String →
    List (String × String) → Option (List (String × String))
  | [], [], names, params => if names.isEmpty then some params else none
  | rseg :: rs, pseg :: ps, names, params =>
    if rseg = ":" then
      match names with
      | [] => none
      | nm :: rest => matchLoop rs ps rest (updateA params nm pseg)
    else if rseg ≠ pseg then none
    else matchLoop rs ps names params
  | _, _, _, _ => none

/-- Embeds `Route.matchFast` (src/http_router.go:159). -/
def matchFast {H : Type} (r : RouteR H) (pathSegments : List String) :
    Option (List (String × String)) :=
  if r.segments.length ≠ pathSegments.length then none
  else matchLoop r.segments pathSegments r.paramNames []

/-- Embeds the `Router` struct (src/http_router.go:19): per-method route lists
plus the bounded result cache keyed by `method ++ ":" ++ path`. -/
structure RouterS (H : Type) where
  routes : List (String × List (RouteR H))
  cache : List (String × (H × List (String × String)))
  cacheSize : Nat

/-- Embeds `NewRouter` (src/http_router.go:32). -/
def newRouter (H : Type) : RouterS H :=
  { routes := [], cache := [], cacheSize := 1024 }

/-- Embeds `Router.AddRoute` (src/http_router.go:44): compiles the route,
appends it to the method's list and clears the whole cache (`clearCache`). -/
def addRoute {H : Type} (r : RouterS H) (method path : String) (handler : H) :
    RouterS H :=
  let route := mkRoute method path handler
  let old := (lookupA r.routes method).getD []
  { r with routes := updateA r.routes method (old ++ [route]), cache := [] }

/-- The registration-order scan of `FindRoute` (src/http_router.go:81-87):
first route whose `matchFast` succeeds. -/
def firstMatch {H : Type} (routes : List (RouteR H)) (segs : List String) :
    Option (H × List (String × String)) :=
  routes.findSome? (fun rt => (matchFast rt segs).map (fun ps => (rt.handler, ps)))

/-- Embeds `Router.putToCache` (src/http_router.go:103): full flush when the
cache has reached its capacity, then insert. -/
def putToCache {H : Type} (r : RouterS H) (key : String)
    (e : H × List (String × String)) : RouterS H :=
  let c := if r.cache.length ≥ r.cacheSize then [] else r.cache
  { r with cache := updateA c key e }

/-- Embeds `Router.FindRoute` (src/http_router.go:64): cache probe, then the
linear scan of the method's routes; a successful scan result is written back
into the cache.  Returns the lookup result together with the updated router. -/
def findRoute {H : Type} (r : RouterS H) (method path : String) :
    Option (H × List (String × String)) × RouterS H :=
  let key := method ++ ":" ++ path
  match lookupA r.cache key with
  | some e => (some e, r)
  | none =>
    match lookupA r.routes method with
    | none => (none, r)
    | some routes =>
      let segs := splitPathFast path
      match firstMatch routes segs with
      | some res => (some res, putToCache r key res)
      | none => (none, r)

/-- The cache-free lookup: what `FindRoute` computes on a cold cache.  Used to
express cache coherence. -/
def computeFind {H : Type} (routes : List (String × List (RouteR H)))
    (method path : String) : Option (H × List (String × String)) :=
  match lookupA routes method with
  | none => none
  | some rts => firstMatch rts (splitPathFast path)

/-- Router states reachable from `NewRouter` by any interleaving of
registrations and lookups. -/
inductive Reachable {H : Type} : RouterS H → Prop
  | base : Reachable (newRouter H)
  | add (r : RouterS H) (m p : String) (h : H) :
      Reachable r → Reachable (addRoute r m p h)
  | find (r : RouterS H) (m p : String) :
      Reachable r → Reachable (findRoute r m p).2

/-! ## Wire parser (src/http_request_parser.go)

The byte stream of a connection is a `List Nat`.  Reader operations consume a
prefix of the stream and return the remainder, so `Except err (α × List Nat)`
models a fallible read. -/

/-- Parse error classification for the embedded parser.  The source reports
errors as wrapped `fmt.Errorf` strings; here each distinct failure site gets a
constructor.  `outOfFuel` is the artificial fuel-exhaustion marker of the loop
embeddings; every loop consumes at least one byte per iteration, so a fuel of
`stream.length + 1` never produces it. -/
inductive ParseErr where
  | eofErr
  | malformedRequestLine
  | invalidMethod
  | invalidChunkSize
  | bodyTooLarge
  | readBodyFailed
  | slicePanic
  | outOfFuel
  deriving Repr, DecidableEq

/-- Splits a byte stream at the first occurrence of byte `b` (the byte itself
is dropped); `none` when `b` does not occur. -/
def splitAtByte (b : Nat) : List Nat → Option (List Nat × List Nat)
  | [] => none
  | x :: xs =>
    if x = b then some ([], xs)
    else (splitAtByte b xs).map (fun pr => (x :: pr.1, pr.2))

/-- Drops one trailing carriage-return byte, if present. -/
def stripCR (l : List Nat) : List Nat :=
  if l.getLast? = some 13 then l.dropLast else l

/-- Embeds `HTTPParser.readLineFast` (src/http_request_parser.go:206): one
full line up to the next newline.  `bufio.Reader.ReadLine` strips the final
`\r\n` or `\n`; `readLineFast` then strips one more trailing `\r`.  At end of
stream with no newline the buffered bytes are returned as the line; an empty
stream is an EOF error. -/
def readLineFast (s : List Nat) : Except ParseErr (List Nat × List Nat) :=
  match s with
  | [] => .error .eofErr
  | _ =>
    match splitAtByte 10 s with
    | some (line, rest) => .ok (stripCR (stripCR line), rest)
    | none => .ok (stripCR s, [])

/-- Embeds `io.ReadFull` of `n` bytes: errors when the stream is shorter. -/
def readFull (n : Nat) (s : List Nat) : Except ParseErr (List Nat × List Nat) :=
  if s.length < n then .error .eofErr else .ok (s.take n, s.drop n)

/-- Embeds `bufio.Reader.Discard n`: errors when the stream is shorter. -/
def discardN (n : Nat) (s : List Nat) : Except ParseErr (List Nat) :=
  if s.length < n then .error .eofErr else .ok (s.drop n)

/-- Value of one hexadecimal digit byte (0-9, a-f, A-F). -/
def hexVal (b : Nat) : Option Nat :=
  if 48 ≤ b ∧ b ≤ 57 then some (b - 48)
  else if 97 ≤ b ∧ b ≤ 102 then some (b - 87)
  else if 65 ≤ b ∧ b ≤ 70 then some (b - 55)
  else none

/-- Accumulating value of a hexadecimal digit string; `none` on the first
non-digit. -/
def hexDigitsVal : List Nat → Nat → Option Nat
  | [], acc => some acc
  | b :: rest, acc =>
    match hexVal b with
    | none => none
    | some d => hexDigitsVal rest (acc * 16 + d)

/-- Embeds `strconv.ParseInt(string(line), 16, 64)`: optional sign, then a
non-empty run of hex digits, with the result bounded to the int64 range. -/
def parseHexInt (l : List Nat) : Option Int :=
  match l with
  | [] => none
  | b :: rest =>
    let neg := b = 45
    let digits := if b = 43 ∨ b = 45 then rest else l
    if digits.isEmpty then none
    else
      match hexDigitsVal digits 0 with
      | none => none
      | some v =>
        let i : Int := if neg then -(v : Int) else (v : Int)
        if i < -9223372036854775808 ∨ (9223372036854775807 : Int) < i then none else some i

/-- Value of one decimal digit byte. -/
def decVal (b : Nat) : Option Nat :=
  if 48 ≤ b ∧ b ≤ 57 then some (b - 48) else none

/-- Accumulating value of a decimal digit string. -/
def decDigitsVal : List Nat → Nat → Option Nat
  | [], acc => some acc
  | b :: rest, acc =>
    match decVal b with
    | none => none
    | some d => decDigitsVal rest (acc * 10 + d)

/-- Embeds `strconv.Atoi`: optional sign, then a non-empty run of decimal
digits, bounded to the int64 range of Go's `int`. -/
def goAtoi (s : String) : Option Int :=
  match s.toList.map Char.toNat with
  | [] => none
  | b :: rest =>
    let neg := b = 45
    let digits := if b = 43 ∨ b = 45 then rest else b :: rest
    if digits.isEmpty then none
    else
      match decDigitsVal digits 0 with
      | none => none
      | some v =>
        let i : Int := if neg then -(v : Int) else (v : Int)
        if i < -9223372036854775808 ∨ (9223372036854775807 : Int) < i then none else some i

/-- Embeds the trailer-header loop of `parseChunkedBodyFast`
(src/http_request_parser.go:321-330): reads lines until the terminating empty
line and returns the stream positioned after it. -/
def readTrailer : Nat → List Nat → Except ParseErr (List Nat)
  | 0, _ => .error .outOfFuel
  | fuel + 1, s =>
    match readLineFast s with
    | .error e => .error e
    | .ok (line, s') => if line.isEmpty then .ok s' else readTrailer fuel s'

/-- Embeds the main loop of `parseChunkedBodyFast`
(src/http_request_parser.go:307-359): read a hex size line; a zero size ends
the body (after consuming trailers); otherwise add the declared size to the
running total and fail with `bodyTooLarge` as soon as it exceeds 10 MiB, then
read the chunk bytes and discard the trailing CRLF.  A negative declared size
makes the Go source panic at the slice re-bounding, modelled as `slicePanic`. -/
def chunkLoop : Nat → List Nat → List Nat → Int →
    Except ParseErr (List Nat × List Nat)
  | 0, _, _, _ => .error .outOfFuel
  | fuel + 1, s, buf, totalRead =>
    match readLineFast s with
    | .error e => .error e
    | .ok (line, s1) =>
      match parseHexInt line with
      | none => .error .invalidChunkSize
      | some chunkSize =>
        if chunkSize = 0 then
          match readTrailer (s1.length + 1) s1 with
          | .error e => .error e
          | .ok s2 => .ok (buf, s2)
        else
          let total := totalRead + chunkSize
          if total > 10485760 then .error .bodyTooLarge
          else if chunkSize < 0 then .error .slicePanic
          else
            match readFull chunkSize.toNat s1 with
            | .error e => .error e
            | .ok (chunk, s2) =>
              match discardN 2 s2 with
              | .error e => .error e
              | .ok s3 => chunkLoop fuel s3 (buf ++ chunk) total

/-- Embeds `parseChunkedBodyFast` (src/http_request_parser.go:303): runs the
chunk loop on an empty buffer with a zero running total. -/
def parseChunkedBodyFast (s : List Nat) : Except ParseErr (List Nat × List Nat) :=
  chunkLoop (s.length + 1) s [] 0

/-- Interprets a byte list as a string (one character per byte; the inputs
exercised here are ASCII, where this agrees with Go's `string(bytes)`). -/
def bytesToStr (l : List Nat) : String := String.mk (l.map Char.ofNat)

/-- Byte list of an ASCII string. -/
def strToBytes (s : String) : List Nat := s.toList.map Char.toNat

/-- ASCII white-space test used by `strings.TrimSpace`. -/
def isAsciiSpaceB (b : Nat) : Bool :=
  b = 32 ∨ b = 9 ∨ b = 10 ∨ b = 11 ∨ b = 12 ∨ b = 13

/-- Trims ASCII white space from both ends of a byte list, modelling
`strings.TrimSpace` on ASCII input. -/
def trimSpaceB (l : List Nat) : List Nat :=
  ((l.dropWhile isAsciiSpaceB).reverse.dropWhile isAsciiSpaceB).reverse

/-- Result of parsing a request line. -/
structure RequestLineR where
  method : String
  rawURL : String
  proto : String
  deriving Repr, DecidableEq

/-- The HTTP verb set of `isValidMethod` (src/http_request_parser.go:191). -/
def httpMethods : List String :=
  ["GET", "POST", "PUT", "DELETE", "HEAD", "OPTIONS", "PATCH", "CONNECT", "TRACE"]

/-- Embeds `isValidMethod` (src/http_request_parser.go:191): exact match
against the verb set, or a match after upper-casing. -/
def isValidMethod (m : String) : Bool :=
  httpMethods.contains m || httpMethods.contains (upperStr m)

/-- Embeds `bytes.Split(line, []byte{' '})` followed by `string(...)`. -/
def splitOnSpace (line : String) : List String :=
  (splitListOn ' ' line.toList).map String.mk

/-- Embeds `parseRequestLineFast` (src/http_request_parser.go:137) after the
line has been read: split on spaces; fewer than two parts is a malformed
request line; the method must pass `isValidMethod`; a missing third part
defaults the protocol to HTTP/1.1; an empty target becomes `/` and a target
that has no scheme separator and does not start with `/` gets `/` prefixed.
The final `url.Parse` of the source cannot fail (its `QueryEscape` fallback
always parses), so no further error is modelled. -/
def parseRequestLineFast (line : String) : Except ParseErr RequestLineR :=
  let parts := splitOnSpace line
  if parts.length < 2 then .error .malformedRequestLine
  else
    let method := parts.headD ""
    if isValidMethod method = false then .error .invalidMethod
    else
      let rawURL0 := parts.getD 1 ""
      let proto := if parts.length ≥ 3 then parts.getD 2 "" else "HTTP/1.1"
      let rawURL1 := if rawURL0 = "" then "/" else rawURL0
      let rawURL :=
        if containsSub ("://".toList) rawURL1.toList = false ∧ headChar rawURL1 ≠ '/'
        then "/" ++ rawURL1 else rawURL1
      .ok { method := method, rawURL := rawURL, proto := proto }

/-- Embeds `bytes.IndexByte`. -/
def indexOfByte (b : Nat) : List Nat → Option Nat
  | [] => none
  | x :: xs => if x = b then some 0 else (indexOfByte b xs).map (· + 1)

/-- Embeds the header loop of `parseHeadersFast`
(src/http_request_parser.go:230): lines until the empty line; a line without
a colon or with an empty key is skipped; keys and values are trimmed; EOF is
tolerated as end-of-headers once at least one header was stored. -/
def parseHeadersLoop : Nat → List Nat → List (String × String) → Nat →
    Except ParseErr (List (String × String) × List Nat)
  | 0, _, _, _ => .error .outOfFuel
  | fuel + 1, s, acc, count =>
    match readLineFast s with
    | .error e => if count > 0 then .ok (acc, s) else .error e
    | .ok (line, s') =>
      if line.isEmpty then .ok (acc, s')
      else
        match indexOfByte 58 line with
        | none => parseHeadersLoop fuel s' acc count
        | some idx =>
          if idx = 0 then parseHeadersLoop fuel s' acc count
          else
            let key := bytesToStr (trimSpaceB (line.take idx))
            let value := bytesToStr (trimSpaceB (line.drop (idx + 1)))
            parseHeadersLoop fuel s' (updateA acc key value) (count + 1)

/-- Embeds `parseHeadersFast` (src/http_request_parser.go:230). -/
def parseHeadersFast (s : List Nat) :
    Except ParseErr (List (String × String) × List Nat) :=
  parseHeadersLoop (s.length + 1) s [] 0

/-- Embeds `HTTPRequest.ContentLength` (src/http_request_parser.go:53) on a
freshly reset request (cached field 0): the Content-Length header parsed by
`strconv.Atoi`, kept only when non-negative. -/
def contentLengthOf (headers : List (String × String)) : Int :=
  match lookupA headers "Content-Length" with
  | none => 0
  | some v =>
    match goAtoi v with
    | some cl => if cl ≥ 0 then cl else 0
    | none => 0

/-- Embeds `parseBodyFast` (src/http_request_parser.go:271): a positive
Content-Length larger than 10 MiB is rejected before any read; otherwise that
many bytes are read; with no Content-Length, a Transfer-Encoding containing
`chunked` (case-insensitively) selects the chunked decoder; otherwise the body
is empty. -/
def parseBodyFast (headers : List (String × String)) (s : List Nat) :
    Except ParseErr (List Nat × List Nat) :=
  let cl := contentLengthOf headers
  if cl > 0 then
    if cl > 10485760 then .error .bodyTooLarge
    else
      match readFull cl.toNat s with
      | .error _ => .error .readBodyFailed
      | .ok (b, rest) => .ok (b, rest)
  else
    let te := (lookupA headers "Transfer-Encoding").getD ""
    if te ≠ "" ∧ containsSub ("chunked".toList) (lowerStr te).toList
    then parseChunkedBodyFast s
    else .ok ([], s)

/-- The parsed request (src/http_request_parser.go:24), with the `url.URL`
field reduced to the raw target it was parsed from. -/
structure HTTPRequestR where
  method : String
  rawURL : String
  proto : String
  headers : List (String × String)
  host : String
  body : List Nat
  deriving Repr, DecidableEq

/-- Embeds `parseRequestInto` / `ParseRequest`
(src/http_request_parser.go:106-135): request line, then headers, then body;
the first failure aborts the parse. -/
def parseRequest (s : List Nat) : Except ParseErr (HTTPRequestR × List Nat) :=
  match readLineFast s with
  | .error e => .error e
  | .ok (line, s1) =>
    match parseRequestLineFast (bytesToStr line) with
    | .error e => .error e
    | .ok rl =>
      match parseHeadersFast s1 with
      | .error e => .error e
      | .ok (hdrs, s2) =>
        match parseBodyFast hdrs s2 with
        | .error e => .error e
        | .ok (body, s3) =>
          .ok ({ method := rl.method, rawURL := rl.rawURL, proto := rl.proto,
                 headers := hdrs, host := (lookupA hdrs "Host").getD "",
                 body := body }, s3)

/-! ## Chunked encoder (from the claim statement)

The encoding described by C3: each chunk as a lowercase-hex size line followed
by CRLF, the chunk bytes, CRLF; then the zero-size chunk line and the final
empty trailer line. -/

/-- Byte of one lowercase hex digit. -/
def hexDigitChar (d : Nat) : Nat := if d < 10 then 48 + d else 87 + d

/-- Most-significant-first hex digits of `n` (empty for 0); the fuel is an
upper bound on the digit count, `n` itself always suffices. -/
def toHexAux : Nat → Nat → List Nat
  | 0, _ => []
  | fuel + 1, n => if n = 0 then [] else toHexAux fuel (n / 16) ++ [hexDigitChar (n % 16)]

/-- Lowercase hex byte string of `n` (the usual encoder output; `0` for 0). -/
def hexBytes (n : Nat) : List Nat := if n = 0 then [48] else toHexAux n n

/-- Chunked-transfer encoding of a chunk list, terminated by the zero-size
chunk and the empty trailer line. -/
def encodeChunked (chunks : List (List Nat)) : List Nat :=
  chunks.foldr
    (fun c acc => hexBytes c.length ++ [13, 10] ++ c ++ [13, 10] ++ acc)
    [48, 13, 10, 13, 10]

/-! ## Connection handling (src/http_server.go) -/

/-- Models the `Path` field computed by net/url's `url.Parse` for the
origin-form targets exercised here (no scheme, no percent-escapes): the
target up to the first `?` or `#`.  (net/url is Go standard library, not
repository code.) -/
def urlPath (raw : String) : String :=
  String.mk (raw.toList.takeWhile (fun ch => ch ≠ '?' ∧ ch ≠ '#'))

/-- Observable outcome of one connection: how many requests were read and
served from the stream, whether the served request's route was found, and
whether the socket ended up closed. -/
structure ConnOutcome where
  requestsServed : Nat
  routeFound : Bool
  closed : Bool
  deriving Repr, DecidableEq

/-- Embeds `handleConnectionFast` (src/http_server.go:181-222) together with
the dispatch of `processRequestFast` (src/http_server.go:240-313): at most ONE
request is parsed from the connection's stream; on success it is dispatched
(route lookup and handler chain) and the connection is then closed by the
deferred `conn.Close()`; on a parse failure the connection closes without
serving.  The source never consults the Connection request header here and
never reads a second request.  Handler execution is kept abstract: responses
go to the socket, which is not part of the modelled input stream. -/
def handleConnectionFast {H : Type} (rt : RouterS H) (s : List Nat) : ConnOutcome :=
  match parseRequest s with
  | .error _ => { requestsServed := 0, routeFound := false, closed := true }
  | .ok (req, _) =>
    { requestsServed := 1,
      routeFound := (findRoute rt req.method (urlPath req.rawURL)).1.isSome,
      closed := true }

/-! ## Pooled objects and the dispatch context
(src/http_request_parser.go, src/http_response_writer.go, src/http_context.go) -/

/-- A Go slice: a backing array together with the visible length (`len`).
Truncation (`s[:0]`) resets `len` but keeps the backing array, so old
elements stay reachable in memory; fully clearing replaces the backing. -/
structure GoSlice (α : Type) where
  backing : List α
  len : Nat
  deriving Repr, DecidableEq

/-- The elements observable through the slice. -/
def GoSlice.view {α : Type} (s : GoSlice α) : List α := s.backing.take s.len

/-- Go `s[:0]`. -/
def GoSlice.truncate {α : Type} (s : GoSlice α) : GoSlice α := { s with len := 0 }

/-- Go `append(s, x)`: writes into the backing array while capacity allows,
reallocating otherwise. -/
def GoSlice.push {α : Type} (s : GoSlice α) (x : α) : GoSlice α :=
  if s.len < s.backing.length then
    { backing := s.backing.set s.len x, len := s.len + 1 }
  else
    { backing := s.backing ++ [x], len := s.len + 1 }

/-- The poolable `HTTPRequest` (src/http_request_parser.go:24), with `Body` as
a Go slice so that truncation and clearing are distinguishable. -/
structure PooledRequest where
  method : String
  url : Option String
  proto : String
  host : String
  rawURL : String
  contentLength : Int
  parsed : Bool
  headers : List (String × String)
  body : GoSlice Nat
  deriving Repr, DecidableEq

/-- Embeds `HTTPRequest.reset` (src/http_request_parser.go:37): scalar fields
zeroed, `Body` truncated to length 0 (backing kept), and every key deleted
from the Headers map. -/
def requestReset (r : PooledRequest) : PooledRequest :=
  { method := "", url := none, proto := "", host := "", rawURL := "",
    contentLength := 0, parsed := false, headers := [],
    body := r.body.truncate }

/-- The poolable `ResponseWriter` (src/http_response_writer.go:13); the
connection is an abstract handle, the buffer a string. -/
structure PooledWriter where
  conn : Option Nat
  header : List (String × String)
  status : Int
  buffer : String
  deriving Repr, DecidableEq

/-- Embeds `ResponseWriter.reset` (src/http_response_writer.go:47): connection
dropped, status 200, buffer reset, every header key deleted. -/
def writerReset (_w : PooledWriter) : PooledWriter :=
  { conn := none, status := 200, buffer := "", header := [] }

/-- Embeds `ResponseWriter.fastInit` (src/http_response_writer.go:35). -/
def writerFastInit (w : PooledWriter) (conn : Nat) : PooledWriter :=
  { w with conn := some conn, status := 200, buffer := "", header := [] }

/-- The dispatch `Context` (src/http_context.go:10); handlers and bag values
abstract. -/
structure ContextS (H V : Type) where
  conn : Option Nat
  request : Option PooledRequest
  writer : Option PooledWriter
  params : List (String × String)
  values : List (String × V)
  index : Int
  handlers : GoSlice H

/-- Embeds `Context.fastInit` (src/http_context.go:25): references set, cursor
-1, handler slice truncated to zero length and the route handler appended,
Values cleared key by key. -/
def contextFastInit {H V : Type} (c : ContextS H V) (conn : Nat)
    (req : PooledRequest) (w : PooledWriter) (params : List (String × String))
    (handler : H) : ContextS H V :=
  { c with
    conn := some conn, request := some req, writer := some w,
    params := params, index := -1, values := [],
    handlers := c.handlers.truncate.push handler }

/-- Modelled from the spec: `Context.reset` is called by `processRequestFast`
(src/http_server.go:272) before a Context re-enters the pool, but its
definition is absent from the provided sources.  Spec §3 requires: "its
key-value bag and handler-chain slice must be fully cleared — not merely
truncated to zero length while old values remain reachable — before the
instance re-enters the pool".  The model therefore empties the value bag and
the whole handler backing array and drops the per-request references. -/
def contextReset {H V : Type} (_c : ContextS H V) : ContextS H V :=
  { conn := none, request := none, writer := none, params := [],
    values := [], index := -1, handlers := { backing := [], len := 0 } }

/-- Embeds `HTTPServer.shouldClose` (src/http_server.go:376).  The source
defines it but never invokes it from the connection handler. -/
def shouldClose (req : HTTPRequestR) : Bool :=
  (lookupA req.headers "Connection").getD "" = "close"

/-- Result of one `Context.Next` step: the handler the dispatcher must now
invoke, or that the chain is exhausted, or that the Go source would panic on
a negative index (unreachable from the initial cursor -1). -/
inductive NextAction (H : Type) where
  | invoke (h : H)
  | noop
  | panicked
  deriving DecidableEq

/-- Embeds `Context.Next` (src/http_context.go:46) as a step function: the
cursor advances, and the handler at the new cursor is read exactly when the
source's guard `c.Index < len(c.handlers)` holds. -/
def nextStep {H V : Type} (c : ContextS H V) : ContextS H V × NextAction H :=
  let c' : ContextS H V := { c with index := c.index + 1 }
  if c'.index < (c'.handlers.len : Int) then
    if 0 ≤ c'.index then
      match c'.handlers.view.get? c'.index.toNat with
      | some h => (c', .invoke h)
      | none => (c', .panicked)
    else (c', .panicked)
  else (c', .noop)

/-! ## Response serialization (src/http_response_writer.go) -/

/-- Embeds `getStatusText` (src/http_response_writer.go:130). -/
def getStatusText (code : Int) : String :=
  if code = 200 then "OK"
  else if code = 201 then "Created"
  else if code = 400 then "Bad Request"
  else if code = 404 then "Not Found"
  else if code = 500 then "Internal Server Error"
  else "Unknown Status"

/-- Embeds the header fix-up of `writeResponse`
(src/http_response_writer.go:104-108): Content-Length is injected when the
header map holds no non-empty value for it, then Connection is forced to
`close`. -/
def responseHeaders (hdr : List (String × String)) (bodyLen : Nat) :
    List (String × String) :=
  let hdr :=
    if (lookupA hdr "Content-Length").getD "" = "" then
      updateA hdr "Content-Length" (toString bodyLen)
    else hdr
  updateA hdr "Connection" "close"

/-- One `key: value\r\n` line per header, in map order. -/
def renderHeaders : List (String × String) → String
  | [] => ""
  | (k, v) :: rest => k ++ ": " ++ v ++ "\r\n" ++ renderHeaders rest

/-- Embeds `writeResponse` (src/http_response_writer.go:92): the status line,
the fixed-up headers, a blank line, then the body bytes (written to the socket
as one batch). -/
def writeResponse (w : PooledWriter) (body : List Nat) : String × List Nat :=
  ("HTTP/1.1 " ++ toString w.status ++ " " ++ getStatusText w.status ++ "\r\n" ++
    renderHeaders (responseHeaders w.header body.length) ++ "\r\n", body)

/-! ### Router lemmas -/

theorem lookupA_updateA {V : Type} (l : List (String × V)) (k k' : String) (v : V) :
    lookupA (updateA l k v) k' = if k = k' then some v else lookupA l k' := by
  induction l with
  | nil => simp [updateA, lookupA]
  | cons a rest ih =>
    obtain ⟨ka, va⟩ := a
    by_cases hka : ka = k
    · subst hka
      simp only [updateA, if_pos rfl, lookupA]
      by_cases h' : ka = k'
      · simp [h']
      · simp [h', lookupA]
    · simp only [updateA, if_neg hka, lookupA]
      by_cases h' : ka = k'
      · subst h'
        have : ¬ k = ka := fun h => hka h.symm
        simp [this]
      · simp [h', ih]

theorem firstMatch_first_wins {H : Type} (l1 : List (RouteR H)) (rt : RouteR H)
    (l2 : List (RouteR H)) (segs : List String) (ps : List (String × String))
    (hnone : ∀ rt' ∈ l1, matchFast rt' segs = none)
    (hmatch : matchFast rt segs = some ps) :
    firstMatch (l1 ++ rt :: l2) segs = some (rt.handler, ps) := by
  induction l1 with
  | nil => simp [firstMatch, List.findSome?_cons, hmatch]
  | cons a rest ih =>
    have ha : matchFast a segs = none := hnone a (List.mem_cons_self a rest)
    have hrest : ∀ rt' ∈ rest, matchFast rt' segs = none :=
      fun rt' h => hnone rt' (List.mem_cons_of_mem a h)
    simpa [firstMatch, List.findSome?_cons, ha] using ih hrest

/-- Cache coherence: every cache entry is the uncached lookup result, against
the current route set, of some (method, path) pair with the entry's key. -/
def CacheCoherent {H : Type} (r : RouterS H) : Prop :=
  ∀ k e, lookupA r.cache k = some e →
    ∃ m p, m ++ ":" ++ p = k ∧ computeFind r.routes m p = some e

theorem cacheCoherent_of_nil {H : Type} (r : RouterS H) (h : r.cache = []) :
    CacheCoherent r := by
  intro k e hk
  rw [h] at hk
  simp [lookupA] at hk

theorem cacheCoherent_findRoute {H : Type} (r : RouterS H) (m p : String)
    (hr : CacheCoherent r) : CacheCoherent (findRoute r m p).2 := by
  cases hcache : lookupA r.cache (m ++ ":" ++ p) with
  | some e => simp only [findRoute, hcache]; exact hr
  | none =>
    cases hroutes : lookupA r.routes m with
    | none => simp only [findRoute, hcache, hroutes]; exact hr
    | some routes =>
      cases hfm : firstMatch routes (splitPathFast p) with
      | none => simp only [findRoute, hcache, hroutes, hfm]; exact hr
      | some res =>
        simp only [findRoute, hcache, hroutes, hfm]
        intro k e hk
        simp only [putToCache] at hk
        rw [lookupA_updateA] at hk
        by_cases hkey : m ++ ":" ++ p = k
        · refine ⟨m, p, hkey, ?_⟩
          rw [if_pos hkey] at hk
          cases hk
          simp [putToCache, computeFind, hroutes, hfm]
        · rw [if_neg hkey] at hk
          by_cases hsz : r.cache.length ≥ r.cacheSize
          · rw [if_pos hsz] at hk
            simp [lookupA] at hk
          · rw [if_neg hsz] at hk
            obtain ⟨m', p', hkeq, hcf⟩ := hr k e hk
            exact ⟨m', p', hkeq, hcf⟩

theorem cacheCoherent_of_reachable {H : Type} (r : RouterS H)
    (hr : Reachable r) : CacheCoherent r := by
  induction hr with
  | base => exact cacheCoherent_of_nil _ rfl
  | add r m p h _ _ => exact cacheCoherent_of_nil _ rfl
  | find r m p _ ih => exact cacheCoherent_findRoute r m p ih

/-! ### Claim theorems about the router -/

/-- C1.  Router resolution: with GET /users/:id registered, FindRoute
("GET", "/users/42") returns the registered handler with params
[("id", "42")]; FindRoute ("GET", "/users/42/extra") is a not-found (segment
count mismatch); FindRoute ("POST", "/users/42") is a not-found (method
mismatch); and when several registered routes structurally match a path and
the cache has no entry for the lookup key, the route registered first is the
one returned. -/
theorem c1_router_resolution (H : Type) (h : H) :
    (findRoute (addRoute (newRouter H) "GET" "/users/:id" h) "GET" "/users/42").1 =
      some (h, [("id", "42")]) ∧
    (findRoute (addRoute (newRouter H) "GET" "/users/:id" h) "GET" "/users/42/extra").1 =
      none ∧
    (findRoute (addRoute (newRouter H) "GET" "/users/:id" h) "POST" "/users/42").1 =
      none ∧
    (∀ (r : RouterS H) (m p : String) (l1 l2 : List (RouteR H)) (rt : RouteR H)
        (ps : List (String × String)),
      lookupA r.cache (m ++ ":" ++ p) = none →
      lookupA r.routes m = some (l1 ++ rt :: l2) →
      matchFast rt (splitPathFast p) = some ps →
      (∀ rt' ∈ l1, matchFast rt' (splitPathFast p) = none) →
      (findRoute r m p).1 = some (rt.handler, ps)) := by
  refine ⟨rfl, rfl, rfl, ?_⟩
  intro r m p l1 l2 rt ps hcache hroutes hmatch hnone
  simp [findRoute, hcache, hroutes,
    firstMatch_first_wins l1 rt l2 (splitPathFast p) ps hnone hmatch]

/-- Witness for C1 at concrete inputs: the handler is the number 7; the
first-match clause is exercised on a router holding two structurally matching
routes for GET /users/42, where the first registered one (handler 7) wins over
the second (handler 8). -/
theorem c1_router_resolution_witness :
    (findRoute (addRoute (newRouter Nat) "GET" "/users/:id" 7) "GET" "/users/42").1 =
      some (7, [("id", "42")]) ∧
    (findRoute (addRoute (addRoute (newRouter Nat) "GET" "/users/:id" 7)
        "GET" "/users/:name" 8) "GET" "/users/42").1 = some (7, [("id", "42")]) := by
  constructor
  · exact (c1_router_resolution Nat 7).1
  · exact (c1_router_resolution Nat 7).2.2.2
      (addRoute (addRoute (newRouter Nat) "GET" "/users/:id" 7) "GET" "/users/:name" 8)
      "GET" "/users/42" [] [mkRoute "GET" "/users/:name" 8]
      (mkRoute "GET" "/users/:id" 7) [("id", "42")] rfl rfl rfl
      (by intro rt' hmem; exact absurd hmem (List.not_mem_nil rt'))

/-- C2.  Cache invalidation on registration: AddRoute leaves the route cache
empty, and on any router state reachable by a sequence of AddRoute and
FindRoute calls, every result FindRoute returns is the uncached lookup result
computed against the current route list (for some method/path pair sharing the
cache key) — never a result computed before the latest registration. -/
theorem c2_cache_invalidation :
    (∀ (H : Type) (r : RouterS H) (m p : String) (h : H),
      (addRoute r m p h).cache = []) ∧
    (∀ (H : Type) (r : RouterS H), Reachable r → ∀ (m p : String)
        (res : H × List (String × String)),
      (findRoute r m p).1 = some res →
      ∃ m' p', m' ++ ":" ++ p' = m ++ ":" ++ p ∧
        computeFind r.routes m' p' = some res) := by
  constructor
  · intro H r m p h; rfl
  · intro H r hr m p res hres
    have hcoh := cacheCoherent_of_reachable r hr
    cases hcache : lookupA r.cache (m ++ ":" ++ p) with
    | some e =>
      simp only [findRoute, hcache] at hres
      cases hres
      exact hcoh _ _ hcache
    | none =>
      cases hroutes : lookupA r.routes m with
      | none => simp [findRoute, hcache, hroutes] at hres
      | some routes =>
        cases hfm : firstMatch routes (splitPathFast p) with
        | none => simp [findRoute, hcache, hroutes, hfm] at hres
        | some res' =>
          simp only [findRoute, hcache, hroutes, hfm] at hres
          cases hres
          exact ⟨m, p, rfl, by simp [computeFind, hroutes, hfm]⟩

/-- Witness for C2: a concrete reachable router (one registration) on which a
FindRoute hit is certified to be the uncached result for the current routes. -/
theorem c2_cache_invalidation_witness :
    ∃ m' p', m' ++ ":" ++ p' = "GET" ++ ":" ++ "/users/42" ∧
      computeFind (addRoute (newRouter Nat) "GET" "/users/:id" 7).routes m' p' =
        some (7, [("id", "42")]) :=
  c2_cache_invalidation.2 Nat (addRoute (newRouter Nat) "GET" "/users/:id" 7)
    (Reachable.add _ "GET" "/users/:id" 7 Reachable.base)
    "GET" "/users/42" (7, [("id", "42")]) rfl

/-- C8.  No wildcard routing: a template segment starting with an asterisk is
compiled as a literal segment (no parameter name is recorded), the template
only resolves a path whose segments coincide literally with the compiled
segments, and every path that differs in the starred segment or in segment
count is a not-found. -/
theorem c8_no_wildcard (H : Type) (h : H) :
    (mkRoute "GET" "/static/*filepath" h : RouteR H).segments =
      ["static", "*filepath"] ∧
    (mkRoute "GET" "/static/*filepath" h : RouteR H).paramNames = [] ∧
    (findRoute (addRoute (newRouter H) "GET" "/static/*filepath" h)
      "GET" "/static/*filepath").1 = some (h, []) ∧
    (findRoute (addRoute (newRouter H) "GET" "/static/*filepath" h)
      "GET" "/static/style.css").1 = none ∧
    (findRoute (addRoute (newRouter H) "GET" "/static/*filepath" h)
      "GET" "/static/a/b").1 = none ∧
    (∀ p : String, splitPathFast p ≠ ["static", "*filepath"] →
      (findRoute (addRoute (newRouter H) "GET" "/static/*filepath" h)
        "GET" p).1 = none) := by
  refine ⟨rfl, rfl, rfl, rfl, rfl, ?_⟩
  intro p hp
  have hm : ∀ ps, matchFast (mkRoute "GET" "/static/*filepath" h : RouteR H)
      (splitPathFast p) ≠ some ps := by
    intro ps hmatch
    apply hp
    have hseg : (mkRoute "GET" "/static/*filepath" h : RouteR H).segments =
        ["static", "*filepath"] := rfl
    have hpn : (mkRoute "GET" "/static/*filepath" h : RouteR H).paramNames = [] := rfl
    rw [matchFast, hseg, hpn] at hmatch
    match hsp : splitPathFast p with
    | [] => rw [hsp] at hmatch; simp at hmatch
    | [s0] => rw [hsp] at hmatch; simp at hmatch
    | s0 :: s1 :: s2 :: rest => rw [hsp] at hmatch; simp [List.length] at hmatch
    | [s0, s1] =>
      rw [hsp] at hmatch
      simp only [List.length, if_neg] at hmatch
      by_cases h0 : ("static" : String) = s0
      · by_cases h1 : ("*filepath" : String) = s1
        · rw [← h0, ← h1]
        · simp [matchLoop, h1] at hmatch
      · simp [matchLoop, h0] at hmatch
  have hmc : matchFast (mkRoute "GET" "/static/*filepath" h : RouteR H)
      (splitPathFast p) = none := by
    cases hx : matchFast (mkRoute "GET" "/static/*filepath" h : RouteR H)
        (splitPathFast p) with
    | none => rfl
    | some ps => exact absurd hx (hm ps)
  simp [findRoute, addRoute, newRouter, lookupA, updateA, firstMatch,
    List.findSome?_cons, hmc]

/-- Witness for C8: the nested path /static/css/app.js under the starred
prefix does not resolve. -/
theorem c8_no_wildcard_witness :
    splitPathFast "/static/css/app.js" ≠ ["static", "*filepath"] ∧
    (findRoute (addRoute (newRouter Nat) "GET" "/static/*filepath" 3)
      "GET" "/static/css/app.js").1 = none :=
  ⟨by decide, (c8_no_wildcard Nat 3).2.2.2.2.2 "/static/css/app.js" (by decide)⟩


/-! ### Wire-parser lemmas -/

/-- A byte that can appear in a hex digit string emitted by the encoder. -/
def HexDigitByte (b : Nat) : Prop := (48 ≤ b ∧ b ≤ 57) ∨ (97 ≤ b ∧ b ≤ 102)

theorem toHexAux_digits (fuel : Nat) :
    ∀ n, ∀ b ∈ toHexAux fuel n, HexDigitByte b := by
  induction fuel with
  | zero => intro n b hb; simp [toHexAux] at hb
  | succ f ih =>
    intro n b hb
    by_cases hn : n = 0
    · simp [toHexAux, hn] at hb
    · simp only [toHexAux, if_neg hn, List.mem_append, List.mem_singleton] at hb
      rcases hb with hb | hb
      · exact ih (n / 16) b hb
      · subst hb
        have hlt : n % 16 < 16 := Nat.mod_lt _ (by omega)
        by_cases hd : n % 16 < 10
        · exact Or.inl (by simp [hexDigitChar, hd]; omega)
        · exact Or.inr (by simp [hexDigitChar, hd]; omega)

theorem hexBytes_digits (n : Nat) : ∀ b ∈ hexBytes n, HexDigitByte b := by
  intro b hb
  by_cases hn : n = 0
  · simp [hexBytes, hn] at hb
    subst hb; exact Or.inl (by omega)
  · simp only [hexBytes, if_neg hn] at hb
    exact toHexAux_digits n n b hb

theorem splitAtByte_append (b : Nat) (l rest : List Nat) (hb : b ∉ l) :
    splitAtByte b (l ++ b :: rest) = some (l, rest) := by
  induction l with
  | nil => simp [splitAtByte]
  | cons x xs ih =>
    have hx : x ≠ b := fun h => hb (h ▸ List.mem_cons_self x xs)
    have hxs : b ∉ xs := fun h => hb (List.mem_cons_of_mem x h)
    simp [splitAtByte, hx, ih hxs]

theorem stripCR_concat13 (l : List Nat) : stripCR (l ++ [13]) = l := by
  simp [stripCR, List.getLast?_concat]

theorem stripCR_of_not_mem (l : List Nat) (h : 13 ∉ l) : stripCR l = l := by
  unfold stripCR
  cases hl : l.getLast? with
  | none => simp
  | some b =>
    by_cases hb : b = 13
    · subst hb
      obtain ⟨hne, heq⟩ := List.mem_getLast?_eq_getLast (Option.mem_def.mpr hl)
      exact absurd (heq ▸ List.getLast_mem hne) h
    · simp [hb]

theorem readLineFast_crlf (l rest : List Nat) (h10 : 10 ∉ l) (h13 : 13 ∉ l) :
    readLineFast (l ++ 13 :: 10 :: rest) = .ok (l, rest) := by
  have hsplit : splitAtByte 10 (l ++ 13 :: 10 :: rest) = some (l ++ [13], rest) := by
    have h10' : 10 ∉ l ++ [13] := by
      intro h
      rcases List.mem_append.mp h with h | h
      · exact h10 h
      · simp at h
    have := splitAtByte_append 10 (l ++ [13]) rest h10'
    simpa [List.append_assoc] using this
  have hstrip : stripCR (stripCR (l ++ [13])) = l := by
    rw [stripCR_concat13, stripCR_of_not_mem _ h13]
  cases l with
  | nil =>
    simp only [List.nil_append] at hsplit hstrip ⊢
    simp [readLineFast, hsplit, hstrip]
  | cons a as =>
    simp only [List.cons_append] at hsplit hstrip ⊢
    simp [readLineFast, hsplit, hstrip]

theorem readFull_append (c rest : List Nat) :
    readFull c.length (c ++ rest) = .ok (c, rest) := by
  have hlen : ¬ (c ++ rest).length < c.length := by
    simp [List.length_append]
  simp [readFull, hlen, List.take_left, List.drop_left]

theorem discardN_crlf (rest : List Nat) :
    discardN 2 (13 :: 10 :: rest) = .ok rest := by
  simp [discardN]

theorem readTrailer_crlf (n : Nat) (rest : List Nat) :
    readTrailer (n + 1) (13 :: 10 :: rest) = .ok rest := by
  simp [readTrailer, readLineFast, splitAtByte, stripCR]

theorem hexDigitsVal_append (l1 l2 : List Nat) (acc : Nat) :
    hexDigitsVal (l1 ++ l2) acc =
      match hexDigitsVal l1 acc with
      | none => none
      | some a => hexDigitsVal l2 a := by
  induction l1 generalizing acc with
  | nil => simp [hexDigitsVal]
  | cons b rest ih =>
    simp only [List.cons_append, hexDigitsVal]
    cases hexVal b with
    | none => rfl
    | some d => exact ih (acc * 16 + d)

theorem hexVal_hexDigitChar (d : Nat) (hd : d < 16) :
    hexVal (hexDigitChar d) = some d := by
  by_cases h10 : d < 10
  · simp only [hexDigitChar, if_pos h10, hexVal]
    rw [if_pos (by omega)]
    congr 1
    omega
  · simp only [hexDigitChar, if_neg h10, hexVal]
    rw [if_neg (by omega), if_pos (by omega)]
    congr 1
    omega

theorem hexDigitsVal_toHexAux (fuel : Nat) :
    ∀ n acc, n ≤ fuel →
      hexDigitsVal (toHexAux fuel n) acc =
        some (acc * 16 ^ (toHexAux fuel n).length + n) := by
  induction fuel with
  | zero =>
    intro n acc hn
    have : n = 0 := Nat.le_zero.mp hn
    subst this
    simp [toHexAux, hexDigitsVal]
  | succ f ih =>
    intro n acc hn
    by_cases hzero : n = 0
    · subst hzero; simp [toHexAux, hexDigitsVal]
    · have hdiv : n / 16 ≤ f := by
        have : n / 16 < n := Nat.div_lt_self (by omega) (by omega)
        omega
      simp only [toHexAux, if_neg hzero]
      rw [hexDigitsVal_append, ih (n / 16) acc hdiv]
      simp only [hexDigitsVal, hexVal_hexDigitChar (n % 16) (Nat.mod_lt _ (by omega))]
      rw [List.length_append, List.length_singleton, pow_succ]
      congr 1
      have hdm : 16 * (n / 16) + n % 16 = n := Nat.div_add_mod n 16
      set k := (toHexAux f (n / 16)).length with hk
      calc (acc * 16 ^ k + n / 16) * 16 + n % 16
      _ = acc * (16 ^ k * 16) + (16 * (n / 16) + n % 16) := by ring
      _ = acc * (16 ^ k * 16) + n := by rw [hdm]

theorem toHexAux_ne_nil (f n : Nat) (hn : n ≠ 0) : toHexAux (f + 1) n ≠ [] := by
  simp only [toHexAux, if_neg hn]
  simp

theorem parseHexInt_hexBytes (n : Nat) (h1 : 1 ≤ n)
    (h2 : (n : Int) ≤ 9223372036854775807) : parseHexInt (hexBytes n) = some n := by
  have hne : hexBytes n ≠ [] := by
    simp only [hexBytes, if_neg (by omega : ¬ n = 0)]
    obtain ⟨f, hf⟩ : ∃ f, n = f + 1 := ⟨n - 1, by omega⟩
    rw [hf]
    exact toHexAux_ne_nil f (f + 1) (by omega)
  obtain ⟨b, rest, hl⟩ : ∃ b rest, hexBytes n = b :: rest := by
    cases h : hexBytes n with
    | nil => exact absurd h hne
    | cons b rest => exact ⟨b, rest, rfl⟩
  have hb : HexDigitByte b := hexBytes_digits n b (hl ▸ List.mem_cons_self b rest)
  have hb43 : ¬ (b = 43 ∨ b = 45) := by
    rcases hb with ⟨h', h''⟩ | ⟨h', h''⟩ <;> omega
  have hval : hexDigitsVal (hexBytes n) 0 = some n := by
    simp only [hexBytes, if_neg (by omega : ¬ n = 0)]
    simpa using hexDigitsVal_toHexAux n n 0 le_rfl
  rw [hl] at hval
  simp only [parseHexInt, hl, if_neg hb43]
  have hbne45 : ¬ b = 45 := fun h => hb43 (Or.inr h)
  rw [if_neg (by simp : ¬ (b :: rest : List Nat).isEmpty = true)]
  rw [hval]
  simp only [if_neg hbne45]
  rw [if_neg]
  · simp
  · push_neg
    constructor
    · have : (0 : Int) ≤ (n : Int) := Int.natCast_nonneg n
      omega
    · exact h2

theorem encodeChunked_length (chunks : List (List Nat)) :
    chunks.length ≤ (encodeChunked chunks).length := by
  induction chunks with
  | nil => simp [encodeChunked]
  | cons c cs ih =>
    simp only [encodeChunked, List.foldr_cons, List.length_cons] at ih ⊢
    simp only [List.length_append, List.length_cons, List.length_nil]
    omega

theorem hexBytes_no_lf (n : Nat) : 10 ∉ hexBytes n := by
  intro h
  rcases hexBytes_digits n 10 h with ⟨h1, h2⟩ | ⟨h1, h2⟩ <;> omega

theorem hexBytes_no_cr (n : Nat) : 13 ∉ hexBytes n := by
  intro h
  rcases hexBytes_digits n 13 h with ⟨h1, h2⟩ | ⟨h1, h2⟩ <;> omega

theorem chunkLoop_encode (chunks : List (List Nat)) :
    ∀ (fuel : Nat) (rest buf : List Nat) (totalRead : Int),
      (∀ c ∈ chunks, c ≠ []) →
      totalRead + ((chunks.map List.length).sum : Int) ≤ 10485760 →
      0 ≤ totalRead →
      chunks.length + 1 ≤ fuel →
      chunkLoop fuel (encodeChunked chunks ++ rest) buf totalRead =
        .ok (buf ++ chunks.flatten, rest) := by
  induction chunks with
  | nil =>
    intro fuel rest buf totalRead _ _ _ hfuel
    obtain ⟨f, rfl⟩ : ∃ f, fuel = f + 1 := ⟨fuel - 1, by omega⟩
    have hline : readLineFast (encodeChunked [] ++ rest) = .ok ([48], 13 :: 10 :: rest) := by
      have := readLineFast_crlf [48] (13 :: 10 :: rest) (by decide) (by decide)
      simpa [encodeChunked] using this
    simp only [chunkLoop, hline]
    rw [show parseHexInt [48] = some 0 from rfl]
    simp only [if_pos rfl]
    rw [show (13 :: 10 :: rest : List Nat).length + 1 = (rest.length + 2) + 1 by
      simp]
    rw [readTrailer_crlf]
    simp
  | cons c cs ih =>
    intro fuel rest buf totalRead hne hsum hnn hfuel
    obtain ⟨f, rfl⟩ : ∃ f, fuel = f + 1 := ⟨fuel - 1, by omega⟩
    have hcne : c ≠ [] := hne c (List.mem_cons_self c cs)
    have hclen : 1 ≤ c.length := List.length_pos.mpr hcne
    have hcsum : (c.length : Int) + ((cs.map List.length).sum : Int) =
        (((c :: cs).map List.length).sum : Int) := by
      simp [List.map_cons, List.sum_cons]
    have hstream : encodeChunked (c :: cs) ++ rest =
        hexBytes c.length ++ 13 :: 10 :: (c ++ 13 :: 10 :: (encodeChunked cs ++ rest)) := by
      simp [encodeChunked, List.append_assoc]
    have hline : readLineFast (encodeChunked (c :: cs) ++ rest) =
        .ok (hexBytes c.length, c ++ 13 :: 10 :: (encodeChunked cs ++ rest)) := by
      rw [hstream]
      exact readLineFast_crlf _ _ (hexBytes_no_lf _) (hexBytes_no_cr _)
    have hhex : parseHexInt (hexBytes c.length) = some (c.length : Int) := by
      apply parseHexInt_hexBytes c.length hclen
      have : (c.length : Int) ≤ 10485760 := by
        have hsum' := hsum
        rw [← hcsum] at hsum'
        have : (0 : Int) ≤ ((cs.map List.length).sum : Int) := Int.natCast_nonneg _
        omega
      omega
    simp only [chunkLoop, hline, hhex]
    rw [if_neg (by
      have : (0 : Int) < (c.length : Int) := by exact_mod_cast hclen
      omega)]
    rw [if_neg (by
      rw [← hcsum] at hsum
      have : (0 : Int) ≤ ((cs.map List.length).sum : Int) := Int.natCast_nonneg _
      omega)]
    rw [if_neg (by
      have : (0 : Int) < (c.length : Int) := by exact_mod_cast hclen
      omega)]
    rw [show ((c.length : Int)).toNat = c.length from Int.toNat_natCast c.length]
    rw [show (c ++ 13 :: 10 :: (encodeChunked cs ++ rest) : List Nat) =
      c ++ (13 :: 10 :: (encodeChunked cs ++ rest)) from rfl, readFull_append]
    simp only [discardN_crlf]
    rw [ih f rest (buf ++ c) (totalRead + (c.length : Int))
      (fun x hx => hne x (List.mem_cons_of_mem c hx))
      (by rw [← hcsum] at hsum; omega)
      (by have : (0 : Int) ≤ (c.length : Int) := Int.natCast_nonneg _; omega)
      (by simpa using hfuel)]
    simp [List.append_assoc]

theorem chunkLoop_encode_overflow (chunks : List (List Nat)) :
    ∀ (fuel : Nat) (rest buf : List Nat) (totalRead : Int),
      (∀ c ∈ chunks, c ≠ []) →
      (∀ c ∈ chunks, (c.length : Int) ≤ 9223372036854775807) →
      0 ≤ totalRead →
      totalRead ≤ 10485760 →
      10485760 < totalRead + ((chunks.map List.length).sum : Int) →
      chunks.length + 1 ≤ fuel →
      chunkLoop fuel (encodeChunked chunks ++ rest) buf totalRead =
        .error .bodyTooLarge := by
  induction chunks with
  | nil =>
    intro fuel rest buf totalRead _ _ _ hle hgt _
    simp at hgt
    omega
  | cons c cs ih =>
    intro fuel rest buf totalRead hne hbound hnn hle hgt hfuel
    obtain ⟨f, rfl⟩ : ∃ f, fuel = f + 1 := ⟨fuel - 1, by omega⟩
    have hcne : c ≠ [] := hne c (List.mem_cons_self c cs)
    have hclen : 1 ≤ c.length := List.length_pos.mpr hcne
    have hcsum : (c.length : Int) + ((cs.map List.length).sum : Int) =
        (((c :: cs).map List.length).sum : Int) := by
      simp [List.map_cons, List.sum_cons]
    have hstream : encodeChunked (c :: cs) ++ rest =
        hexBytes c.length ++ 13 :: 10 :: (c ++ 13 :: 10 :: (encodeChunked cs ++ rest)) := by
      simp [encodeChunked, List.append_assoc]
    have hline : readLineFast (encodeChunked (c :: cs) ++ rest) =
        .ok (hexBytes c.length, c ++ 13 :: 10 :: (encodeChunked cs ++ rest)) := by
      rw [hstream]
      exact readLineFast_crlf _ _ (hexBytes_no_lf _) (hexBytes_no_cr _)
    by_cases hbig : (c.length : Int) ≤ 10485760 - totalRead
    · -- this chunk still fits: recurse
      have hhex : parseHexInt (hexBytes c.length) = some (c.length : Int) := by
        apply parseHexInt_hexBytes c.length hclen
        omega
      simp only [chunkLoop, hline, hhex]
      rw [if_neg (by
        have : (0 : Int) < (c.length : Int) := by exact_mod_cast hclen
        omega)]
      rw [if_neg (by omega)]
      rw [if_neg (by
        have : (0 : Int) < (c.length : Int) := by exact_mod_cast hclen
        omega)]
      rw [show ((c.length : Int)).toNat = c.length from Int.toNat_natCast c.length]
      rw [show (c ++ 13 :: 10 :: (encodeChunked cs ++ rest) : List Nat) =
        c ++ (13 :: 10 :: (encodeChunked cs ++ rest)) from rfl, readFull_append]
      simp only [discardN_crlf]
      exact ih f rest (buf ++ c) (totalRead + (c.length : Int))
        (fun x hx => hne x (List.mem_cons_of_mem c hx))
        (fun x hx => hbound x (List.mem_cons_of_mem c hx))
        (by have : (0 : Int) ≤ (c.length : Int) := Int.natCast_nonneg _; omega)
        (by omega)
        (by rw [← hcsum] at hgt; omega)
        (by simpa using hfuel)
    · -- the declared size pushes the running total over the cap
      have hhex : parseHexInt (hexBytes c.length) = some (c.length : Int) := by
        apply parseHexInt_hexBytes c.length hclen
        exact hbound c (List.mem_cons_self c cs)
      simp only [chunkLoop, hline, hhex]
      rw [if_neg (by
        have : (0 : Int) < (c.length : Int) := by exact_mod_cast hclen
        omega)]
      rw [if_pos (by omega)]

/-! ### Claim theorems about the wire parser -/

/-- C3 (amended).  Chunked round-trip for bodies within the 10 MiB cap: for
every list of non-empty chunks whose total size is at most 10*1024*1024 bytes
(which includes bodies of sizes 0, 1, and larger than the 8192-byte internal
chunk buffer), encoding them as hex-size-prefixed chunks each followed by
CRLF, terminated by a zero-size chunk and the final empty trailer line, and
decoding the stream with the chunked-body parser yields exactly the original
byte sequence, with the stream positioned directly after the terminating empty
line. -/
theorem c3_chunked_roundtrip (chunks : List (List Nat)) (rest : List Nat)
    (hne : ∀ c ∈ chunks, c ≠ [])
    (hsz : (chunks.map List.length).sum ≤ 10485760) :
    parseChunkedBodyFast (encodeChunked chunks ++ rest) =
      .ok (chunks.flatten, rest) := by
  have hszI : ((chunks.map List.length).sum : Int) ≤ 10485760 := by exact_mod_cast hsz
  unfold parseChunkedBodyFast
  rw [chunkLoop_encode chunks _ rest [] 0 hne (by omega) le_rfl
    (by
      have h1 := encodeChunked_length chunks
      rw [List.length_append]
      omega)]
  simp

/-- Witness for C3 at body sizes 0, 1, and 9000 (larger than the 8192-byte
initial chunk-buffer capacity). -/
theorem c3_chunked_roundtrip_witness :
    parseChunkedBodyFast (encodeChunked [] ++ []) =
      .ok (([] : List (List Nat)).flatten, []) ∧
    parseChunkedBodyFast (encodeChunked [[65]] ++ [1, 2]) =
      .ok ([[65]].flatten, [1, 2]) ∧
    parseChunkedBodyFast (encodeChunked [List.replicate 9000 66] ++ []) =
      .ok ([List.replicate 9000 66].flatten, []) :=
  ⟨c3_chunked_roundtrip [] [] (by simp) (by simp),
   c3_chunked_roundtrip [[65]] [1, 2] (by simp) (by simp),
   c3_chunked_roundtrip [List.replicate 9000 66] []
     (by
       intro c hc
       simp only [List.mem_singleton] at hc
       subst hc
       exact List.ne_nil_of_length_pos (by rw [List.length_replicate]; omega))
     (by
       simp only [List.map_cons, List.map_nil, List.length_replicate,
         List.sum_cons, List.sum_nil]
       omega)⟩

/-- Counterexample to C3 as stated: the claim quantifies over every body byte
sequence, but the decoder caps the total declared size at 10*1024*1024 bytes
(src/http_request_parser.go:335), so the round-trip fails for a body of
10*1024*1024 + 1 bytes encoded as a single chunk — the decoder reports
body-too-large instead of returning the body. -/
theorem c3_chunked_roundtrip_counterexample :
    parseChunkedBodyFast (encodeChunked [List.replicate 10485761 0]) =
      .error .bodyTooLarge ∧
    parseChunkedBodyFast (encodeChunked [List.replicate 10485761 0]) ≠
      .ok ([List.replicate 10485761 0].flatten, []) := by
  have hne : ∀ c ∈ [List.replicate 10485761 (0 : Nat)], c ≠ [] := by
    intro c hc
    simp only [List.mem_singleton] at hc
    subst hc
    exact List.ne_nil_of_length_pos (by rw [List.length_replicate]; omega)
  have hbound : ∀ c ∈ [List.replicate 10485761 (0 : Nat)],
      (c.length : Int) ≤ 9223372036854775807 := by
    intro c hc
    simp only [List.mem_singleton] at hc
    subst hc
    rw [List.length_replicate]
    norm_num
  have hsum : (10485760 : Int) <
      (([List.replicate 10485761 (0 : Nat)].map List.length).sum : Int) := by
    simp only [List.map_cons, List.map_nil, List.length_replicate,
      List.sum_cons, List.sum_nil]
    norm_num
  have herr : parseChunkedBodyFast
      (encodeChunked [List.replicate 10485761 0] ++ []) =
      .error .bodyTooLarge := by
    unfold parseChunkedBodyFast
    refine chunkLoop_encode_overflow _ _ [] [] 0 hne hbound le_rfl
      (by norm_num) (by omega) ?_
    have h1 := encodeChunked_length [List.replicate 10485761 (0 : Nat)]
    simp only [List.length_singleton] at h1 ⊢
    rw [List.length_append]
    omega
  rw [List.append_nil] at herr
  exact ⟨herr, by rw [herr]; exact fun hcontra => Except.noConfusion hcontra⟩

/-- C5.  Request-line parsing: splitting on spaces yields the tokens; the
parse fails with malformed-request-line exactly when fewer than two tokens are
present; it fails with invalid-method exactly when two or more tokens are
present but the first, compared case-insensitively, is not an HTTP verb; with
exactly two tokens and a valid method the protocol defaults to HTTP/1.1; and
passing the method check is exactly case-insensitive membership in
GET, POST, PUT, DELETE, HEAD, OPTIONS, PATCH, CONNECT, TRACE. -/
theorem c5_request_line (line : String) :
    (parseRequestLineFast line = .error .malformedRequestLine ↔
      (splitOnSpace line).length < 2) ∧
    (parseRequestLineFast line = .error .invalidMethod ↔
      2 ≤ (splitOnSpace line).length ∧
        isValidMethod ((splitOnSpace line).headD "") = false) ∧
    ((splitOnSpace line).length = 2 →
      ∀ rl, parseRequestLineFast line = .ok rl → rl.proto = "HTTP/1.1") ∧
    (∀ m : String, isValidMethod m = true ↔
      httpMethods.contains (upperStr m) = true) := by
  refine ⟨?_, ?_, ?_, ?_⟩
  · by_cases h : (splitOnSpace line).length < 2
    · simp only [parseRequestLineFast, if_pos h]
      exact ⟨fun _ => h, fun _ => trivial⟩
    · cases hv : isValidMethod ((splitOnSpace line).headD "") with
      | false =>
        simp only [parseRequestLineFast, if_neg h, hv]
        rw [if_pos trivial]
        constructor
        · intro hc
          exact absurd (Except.error.inj hc) (fun hc' => ParseErr.noConfusion hc')
        · intro hlt
          exact absurd hlt h
      | true =>
        simp only [parseRequestLineFast, if_neg h, hv]
        rw [if_neg (fun hc => Bool.noConfusion hc)]
        constructor
        · intro hc
          exact Except.noConfusion hc
        · intro hlt
          exact absurd hlt h
  · by_cases h : (splitOnSpace line).length < 2
    · simp only [parseRequestLineFast, if_pos h]
      constructor
      · intro hc
        exact absurd (Except.error.inj hc) (fun hc' => ParseErr.noConfusion hc')
      · rintro ⟨h2, -⟩
        omega
    · cases hv : isValidMethod ((splitOnSpace line).headD "") with
      | false =>
        simp only [parseRequestLineFast, if_neg h, hv]
        rw [if_pos trivial]
        exact ⟨fun _ => ⟨by omega, trivial⟩, fun _ => rfl⟩
      | true =>
        simp only [parseRequestLineFast, if_neg h, hv]
        rw [if_neg (fun hc => Bool.noConfusion hc)]
        constructor
        · intro hc
          exact Except.noConfusion hc
        · rintro ⟨-, hfalse⟩
          exact Bool.noConfusion hfalse
  · intro hlen rl hok
    have h : ¬ (splitOnSpace line).length < 2 := by omega
    cases hv : isValidMethod ((splitOnSpace line).headD "") with
    | false =>
      simp only [parseRequestLineFast, if_neg h, hv] at hok
      rw [if_pos trivial] at hok
      exact Except.noConfusion hok
    | true =>
      simp only [parseRequestLineFast, if_neg h, hv] at hok
      rw [if_neg (fun hc => Bool.noConfusion hc)] at hok
      injection hok with hrl
      subst hrl
      show (if 3 ≤ (splitOnSpace line).length then (splitOnSpace line).getD 2 ""
        else "HTTP/1.1") = "HTTP/1.1"
      rw [if_neg (by omega)]
  · intro m
    constructor
    · intro h
      have h' : m ∈ httpMethods ∨ upperStr m ∈ httpMethods := by
        simpa [isValidMethod] using h
      rcases h' with h1 | h1
      · fin_cases h1 <;> decide
      · simpa using h1
    · intro h
      have h' : upperStr m ∈ httpMethods := by simpa using h
      simp only [isValidMethod, Bool.or_eq_true]
      right
      simpa using h'

/-- Witness for C5: one token is malformed, an unknown verb is rejected, a
lowercase verb passes, and a two-token line defaults the protocol. -/
theorem c5_request_line_witness :
    parseRequestLineFast "GET" = .error .malformedRequestLine ∧
    parseRequestLineFast "XYZ /x HTTP/1.0" = .error .invalidMethod ∧
    isValidMethod "get" = true ∧
    ∀ rl, parseRequestLineFast "GET /x" = .ok rl → rl.proto = "HTTP/1.1" :=
  ⟨(c5_request_line "GET").1.mpr (by decide),
   (c5_request_line "XYZ /x HTTP/1.0").2.1.mpr (by decide),
   (c5_request_line "get").2.2.2 "get" |>.mpr (by decide),
   fun rl => (c5_request_line "GET /x").2.2.1 (by decide) rl⟩

/-! ### Claim theorems about the connection lifecycle and pooled objects -/

/-- Counterexample to C6: a connection stream holding two complete well-formed
GET requests, neither carrying a Connection header (so no Connection: close),
with the route registered; the first request parses successfully and resolves,
no error occurs and no shutdown is signalled, yet the handler serves exactly
one request and closes the connection — it does not read the next request as
the claim requires.  The second conjunct certifies the unread remainder of the
stream is itself a complete well-formed request. -/
theorem c6_keepalive_counterexample :
    parseRequest (strToBytes "GET /a HTTP/1.1\r\n\r\nGET /a HTTP/1.1\r\n\r\n") =
      .ok ({ method := "GET", rawURL := "/a", proto := "HTTP/1.1",
             headers := [], host := "", body := [] },
           strToBytes "GET /a HTTP/1.1\r\n\r\n") ∧
    parseRequest (strToBytes "GET /a HTTP/1.1\r\n\r\n") =
      .ok ({ method := "GET", rawURL := "/a", proto := "HTTP/1.1",
             headers := [], host := "", body := [] }, []) ∧
    lookupA ([] : List (String × String)) "Connection" = none ∧
    handleConnectionFast (addRoute (newRouter Nat) "GET" "/a" 0)
      (strToBytes "GET /a HTTP/1.1\r\n\r\nGET /a HTTP/1.1\r\n\r\n") =
      { requestsServed := 1, routeFound := true, closed := true } :=
  ⟨rfl, rfl, rfl, rfl⟩

/-- C6 (amended).  The per-connection handler serves at most one request and
then always closes the connection, for every router and every input stream —
regardless of the Connection header, of further requests available on the
stream, and of shutdown state.  (`shouldClose` exists in the source but is
never invoked by the handler.) -/
theorem c6_single_request_per_connection {H : Type} (rt : RouterS H)
    (s : List Nat) :
    (handleConnectionFast rt s).closed = true ∧
    (handleConnectionFast rt s).requestsServed ≤ 1 := by
  unfold handleConnectionFast
  cases parseRequest s with
  | error e => exact ⟨rfl, Nat.zero_le 1⟩
  | ok pr => exact ⟨rfl, Nat.le_refl 1⟩

/-- C7.  Pool reuse hygiene: after the embedded reset functions run, a Request
exposes no header entries, a Response writer exposes no header entries, and a
Context's key-value bag and handler chain are fully cleared — the handler
backing array itself is emptied, so no old value stays reachable — and a
subsequent check-out (`fastInit`) exposes exactly the new handler and an empty
value bag. -/
theorem c7_pool_reuse_hygiene {H V : Type} (r : PooledRequest)
    (w : PooledWriter) (c : ContextS H V) :
    (requestReset r).headers = [] ∧
    (writerReset w).header = [] ∧
    (contextReset c).values = [] ∧
    (contextReset c).handlers.backing = [] ∧
    (contextReset c).handlers.view = [] ∧
    ∀ (conn : Nat) (req : PooledRequest) (wr : PooledWriter)
        (ps : List (String × String)) (h : H),
      (contextFastInit (contextReset c) conn req wr ps h).values = [] ∧
      (contextFastInit (contextReset c) conn req wr ps h).handlers.view = [h] := by
  exact ⟨rfl, rfl, rfl, rfl, rfl, fun conn req wr ps h => ⟨rfl, rfl⟩⟩

/-- C9.  Response framing: the serialized response is exactly the status line,
the fixed-up header block and the body; the fixed-up headers always carry
Connection, carry Content-Length set to the body's byte length when the
handler left it unset (absent or empty, as the Go map lookup reports both as
the empty string), and keep the handler's non-empty Content-Length value; and
every fixed-up header entry appears as a line of the serialized header
block. -/
theorem c9_response_framing (w : PooledWriter) (body : List Nat) :
    lookupA (responseHeaders w.header body.length) "Connection" = some "close" ∧
    ((lookupA w.header "Content-Length").getD "" = "" →
      lookupA (responseHeaders w.header body.length) "Content-Length" =
        some (toString body.length)) ∧
    (∀ v, lookupA w.header "Content-Length" = some v → v ≠ "" →
      lookupA (responseHeaders w.header body.length) "Content-Length" = some v) ∧
    (∀ k v, lookupA (responseHeaders w.header body.length) k = some v →
      ∃ pre post, renderHeaders (responseHeaders w.header body.length) =
        pre ++ (k ++ ": " ++ v ++ "\r\n") ++ post) ∧
    (writeResponse w body).1 =
      "HTTP/1.1 " ++ toString w.status ++ " " ++ getStatusText w.status ++
        "\r\n" ++ renderHeaders (responseHeaders w.header body.length) ++
        "\r\n" ∧
    (writeResponse w body).2 = body := by
  refine ⟨?_, ?_, ?_, ?_, rfl, rfl⟩
  · unfold responseHeaders
    rw [lookupA_updateA]
    rw [if_pos rfl]
  · intro hunset
    unfold responseHeaders
    rw [lookupA_updateA, if_neg (by decide), if_pos hunset, lookupA_updateA,
      if_pos rfl]
  · intro v hv hne
    unfold responseHeaders
    rw [lookupA_updateA, if_neg (by decide), if_neg (by rw [hv]; simpa using hne)]
    exact hv
  · intro k v
    generalize responseHeaders w.header body.length = hdr
    induction hdr with
    | nil => intro hc; simp [lookupA] at hc
    | cons kv rest ih =>
      obtain ⟨k', v'⟩ := kv
      intro hc
      by_cases hk : k' = k
      · subst hk
        simp only [lookupA, if_pos rfl] at hc
        cases hc
        exact ⟨"", renderHeaders rest, by simp [renderHeaders]⟩
      · simp only [lookupA, if_neg hk] at hc
        obtain ⟨pre, post, hpre⟩ := ih hc
        exact ⟨k' ++ ": " ++ v' ++ "\r\n" ++ pre, post, by
          simp only [renderHeaders, hpre]
          simp [String.append_assoc]⟩

/-- Witness for C9: with no handler headers and an empty body, Connection and
the injected Content-Length are present; a handler-set Content-Length of "5"
is preserved. -/
theorem c9_response_framing_witness :
    lookupA (responseHeaders ([] : List (String × String)) ([] : List Nat).length)
      "Connection" = some "close" ∧
    lookupA (responseHeaders ([] : List (String × String)) ([] : List Nat).length)
      "Content-Length" = some (toString ([] : List Nat).length) ∧
    lookupA (responseHeaders [("Content-Length", "5")] ([] : List Nat).length)
      "Content-Length" = some "5" :=
  ⟨(c9_response_framing { conn := none, header := [], status := 200, buffer := "" }
      []).1,
   (c9_response_framing { conn := none, header := [], status := 200, buffer := "" }
      []).2.1 rfl,
   (c9_response_framing { conn := none, header := [("Content-Length", "5")], status := 200, buffer := "" } []).2.2.1 "5" rfl (by decide)⟩

/-- C10.  Dispatch cursor safety: when the cursor has reached or passed the
end of the handler chain (the cursor is at the last handler or beyond, so the
advanced cursor is at least the chain length), a further `Next` step invokes
no handler — the guarded index access takes the out-of-range branch to a
no-op — and only the cursor changes: the chain, value bag, params and all
reference fields are untouched. -/
theorem c10_next_cursor_safety {H V : Type} (c : ContextS H V)
    (hend : (c.handlers.len : Int) ≤ c.index + 1) :
    (nextStep c).2 = .noop ∧
    (nextStep c).1.index = c.index + 1 ∧
    (nextStep c).1.handlers = c.handlers ∧
    (nextStep c).1.values = c.values ∧
    (nextStep c).1.params = c.params ∧
    (nextStep c).1.request = c.request ∧
    (nextStep c).1.writer = c.writer ∧
    (nextStep c).1.conn = c.conn := by
  unfold nextStep
  rw [if_neg (show ¬ (c.index + 1 < (c.handlers.len : Int)) by omega)]
  exact ⟨rfl, rfl, rfl, rfl, rfl, rfl, rfl, rfl⟩

/-- Witness for C10: a context whose single-handler chain has completed
(cursor 0 on a chain of length 1). -/
theorem c10_next_cursor_safety_witness :
    (nextStep { conn := none, request := none, writer := none, params := [], values := ([] : List (String × Nat)), index := 0, handlers := { backing := [5], len := 1 } } : ContextS Nat Nat × NextAction Nat).2 = .noop :=
  (c10_next_cursor_safety _ (by decide)).1

end Meego
